import Mathlib

/-
  Verification of the whales market monitor core (whales_monitor.py):
  price parsing, order normalization, best-order selection, snapshot
  diffing, and the per-cycle orchestration of WhalesMarketMonitor.run.
  Numeric values are modelled as exact rationals, per the Decimal
  contract of the specification; raw JSON field values are modelled by
  the PyVal type below.
-/

namespace WhalesMonitor

/-- A raw dynamic value as it appears in a field of an API record:
a number (int or float), a text value, the null value, or any other
shape (list, object, ...). -/
inductive PyVal where
  | num (q : ℚ)
  | str (s : List Char)
  | pynull
  | other
  deriving DecidableEq

/-- Canonical order value built by parse_order: the keys of the dict
returned at whales_monitor.py lines 116-123. -/
structure Order where
  id : Option PyVal
  side : String
  price : ℚ
  amount : ℚ
  collateral : ℚ
  token : String
  deriving DecidableEq

/-- A raw order record from the API: the fields parse_order reads.
A missing key is modelled as none. -/
structure RawOrder where
  id : Option PyVal
  price : Option PyVal
  collateral : Option PyVal
  deriving DecidableEq

/-- Per-pair snapshot: the value stored in all_orders[token] at
whales_monitor.py line 205. -/
structure PairSnap where
  buy : Option Order
  sell : Option Order
  deriving DecidableEq

/-- One step of accumulating the value of a digit string. -/
def digitsStep (a : Nat) (c : Char) : Nat := a * 10 + (c.toNat - ('0').toNat)

/-- Numeric value of a string of decimal digits. -/
def digitsVal (ds : List Char) : Nat := ds.foldl digitsStep 0

/-- Strip a single leading sign character, reporting whether it was a
minus sign. -/
def stripSign (s : List Char) : Bool × List Char :=
  match s with
  | [] => (false, [])
  | c :: r => if c = '-' then (true, r) else if c = '+' then (false, r) else (false, c :: r)

/-- Models Python float() applied to a string, for the standard decimal
forms: optional sign, integer digits, optional fractional part, optional
exponent part; at least one digit is required. Returns none where
float() raises ValueError. (The inf/nan words, digit underscores and
surrounding whitespace accepted by CPython are outside the forms
exercised by this program and are not modelled.) -/
def pyFloatOfString (s : List Char) : Option ℚ :=
  let sg := stripSign s
  let s₁ := sg.2
  let intDs := s₁.takeWhile Char.isDigit
  let s₂ := s₁.dropWhile Char.isDigit
  let fracPair : List Char × List Char :=
    match s₂ with
    | '.' :: r => (r.takeWhile Char.isDigit, r.dropWhile Char.isDigit)
    | _ => ([], s₂)
  let fracDs := fracPair.1
  let s₃ := fracPair.2
  if intDs = [] ∧ fracDs = [] then none
  else
    let mant : ℚ := (digitsVal (intDs ++ fracDs) : ℚ) / (10 : ℚ) ^ fracDs.length
    let signed := if sg.1 then -mant else mant
    match s₃ with
    | [] => some signed
    | e :: r =>
      if e = 'e' ∨ e = 'E' then
        let esg := stripSign r
        let expDs := esg.2.takeWhile Char.isDigit
        let r₂ := esg.2.dropWhile Char.isDigit
        if expDs = [] ∨ r₂ ≠ [] then none
        else some (signed * (if esg.1 then ((10 : ℚ) ^ digitsVal expDs)⁻¹ else (10 : ℚ) ^ digitsVal expDs))
      else none

/-- Models Python float() applied to a dynamic value: numbers convert to
themselves, strings go through the decimal parser, anything else raises
(none). -/
def pyFloat (v : PyVal) : Option ℚ :=
  match v with
  | PyVal.num q => some q
  | PyVal.str s => pyFloatOfString s
  | _ => none

/-- Value of a Unicode subscript digit character, as assigned by the
subscript_map dict at whales_monitor.py lines 95-96 (which covers
exactly the characters of the regex class). -/
def subscriptVal? (c : Char) : Option Nat :=
  if c = '₀' then some 0 else if c = '₁' then some 1 else if c = '₂' then some 2
  else if c = '₃' then some 3 else if c = '₄' then some 4 else if c = '₅' then some 5
  else if c = '₆' then some 6 else if c = '₇' then some 7 else if c = '₈' then some 8
  else if c = '₉' then some 9 else none

/-- Models re.match of the pattern 0 dot 0, one subscript digit, one or
more digits, at the start of the string (trailing characters permitted,
as re.match only anchors at the start). On success returns the zero-run
count read from the subscript character at index 3 together with
group(1), the maximal digit run following it. -/
def subscriptSplit (s : List Char) : Option (Nat × List Char) :=
  match s with
  | '0' :: '.' :: '0' :: c :: rest =>
    match subscriptVal? c with
    | some k =>
      let ds := rest.takeWhile Char.isDigit
      if ds = [] then none else some (k, ds)
    | none => none
  | _ => none

/-- Whether the subscript-price regex matches the string. -/
def matchesSubscript (s : List Char) : Bool := (subscriptSplit s).isSome

/-- Models WhalesMarketMonitor.parse_special_price (whales_monitor.py
lines 85-107): numbers pass through, a string matching the subscript
pattern is decoded by expanding the subscript digit into that many
zeros, any other string is given to float() with 0 as the fallback, and
any non-number non-string input yields 0. -/
def parseSpecialPrice (v : PyVal) : ℚ :=
  match v with
  | PyVal.num q => q
  | PyVal.str s =>
    match subscriptSplit s with
    | some (k, ds) => (pyFloatOfString ('0' :: '.' :: (List.replicate k '0' ++ ds))).getD 0
    | none => (pyFloatOfString s).getD 0
  | _ => 0

/-- Models WhalesMarketMonitor.parse_order (whales_monitor.py lines
109-126): price via parse_special_price of the price field (default the
string 0), collateral via float() of the collateral field (default the
number 0), amount = collateral / price when price is positive else 0.
The only fallible step is the float() conversion of collateral; its
exception is caught and surfaces as none. -/
def parseOrder (order : RawOrder) (side : String) (token : String) : Option Order :=
  let rawPrice := order.price.getD (PyVal.str [ '0' ])
  let price := parseSpecialPrice rawPrice
  match pyFloat (order.collateral.getD (PyVal.num 0)) with
  | none => none
  | some collateral =>
    let amount := if 0 < price then collateral / price else 0
    some { id := order.id, side := side, price := price, amount := amount,
           collateral := collateral, token := token }

/-- The validity filter applied both in run and in get_best_order:
keep orders with positive price and positive amount. -/
def validOf (orders : List Order) : List Order :=
  orders.filter (fun o => decide (0 < o.price) && decide (0 < o.amount))

/-- Python max over a nonempty list with a key function: the running
maximum is replaced only by a strictly larger key, so the first maximal
element wins ties. -/
def pyFold (f : Order → ℚ) (a : Order) (l : List Order) : Order :=
  l.foldl (fun best o => if f best < f o then o else best) a

/-- Python max with a key function, or none on the empty list. -/
def pyMaxBy (f : Order → ℚ) : List Order → Option Order
  | [] => none
  | a :: l => some (pyFold f a l)

/-- Models WhalesMarketMonitor.get_best_order (whales_monitor.py lines
128-137): empty input gives none; otherwise filter to valid orders; a
side equal to BUY selects the maximal price, any other side falls into
the else branch and selects the maximal collateral. -/
def getBestOrder (orders : List Order) (side : String) : Option Order :=
  if orders = [] then none
  else
    let valid := validOf orders
    if valid = [] then none
    else if side = ("BUY" : String) then pyMaxBy (fun o => o.price) valid
    else pyMaxBy (fun o => o.collateral) valid

/-- Models WhalesMarketMonitor.has_order_changed (whales_monitor.py
lines 139-146). -/
def hasOrderChanged (current previous : Option Order) : Bool :=
  match current, previous with
  | none, none => false
  | some _, none => true
  | none, some _ => true
  | some c, some p =>
    decide (c.price ≠ p.price) || decide (c.amount ≠ p.amount) ||
      decide (c.collateral ≠ p.collateral)

/-- Digit characters of a natural number. -/
def natToChars (n : Nat) : List Char := (toString n).toList

/-- Round to the nearest integer, ties to even, as Python float
formatting does on the decimal value. -/
def roundHalfEvenQ (q : ℚ) : ℤ :=
  let f := q.floor
  let r := q - (f : ℚ)
  if r < 1/2 then f else if 1/2 < r then f + 1 else if f % 2 = 0 then f else f + 1

/-- Insert a comma after every third character of a reversed digit
string: helper for thousands grouping. -/
def groupRev : List Char → List Char
  | a :: b :: c :: d :: rest => a :: b :: c :: ',' :: groupRev (d :: rest)
  | l => l

/-- A number formatted with six fractional digits, as the .6f format
specifier renders a price. -/
def fmtFixed6 (q : ℚ) : List Char :=
  let n := roundHalfEvenQ (q * 1000000)
  let sign : List Char := if n < 0 then [ '-' ] else []
  let m := n.natAbs
  let fracDigits := natToChars (m % 1000000)
  sign ++ natToChars (m / 1000000) ++ [ '.' ] ++
    (List.replicate (6 - fracDigits.length) '0' ++ fracDigits)

/-- A number rounded to an integer and thousands-grouped with commas,
as the ,.0f format specifier renders amounts and collateral. -/
def fmtGrouped0 (q : ℚ) : List Char :=
  let n := roundHalfEvenQ q
  let sign : List Char := if n < 0 then [ '-' ] else []
  sign ++ (groupRev (natToChars n.natAbs).reverse).reverse

/-- The block of message text appended for one changed order by
create_changed_orders_message (whales_monitor.py lines 174-181).
em is the per-token emoji lookup built from self.tokens. -/
def orderBlock (em : String → List Char) (o : Order) : List Char :=
  let sideLabel : String := if o.side = ("BUY" : String) then ("BUY") else ("SELL")
  let sideEmoji : String := if sideLabel = ("BUY" : String) then ("🟢") else ("🔴")
  em o.token ++ (" ").toList ++ sideEmoji.toList ++ (" <b>").toList ++ o.token.toList
    ++ (" ").toList ++ sideLabel.toList ++ ("</b>\n").toList
    ++ ("💰 Price: $").toList ++ fmtFixed6 o.price ++ ("\n").toList
    ++ ("📦 Amount: ").toList ++ fmtGrouped0 o.amount ++ (" tokens\n").toList
    ++ ("💵 Collateral: $").toList ++ fmtGrouped0 o.collateral ++ ("\n").toList
    ++ ("━━━━━━━━━━━━━━━━━━━━\n").toList

/-- One accumulation step of the message loop: a none entry is skipped,
an order appends its block. -/
def msgStep (em : String → List Char) (acc : List Char) (ord : Option Order) : List Char :=
  match ord with
  | none => acc
  | some o => acc ++ orderBlock em o

/-- Models WhalesMarketMonitor.create_changed_orders_message
(whales_monitor.py lines 167-182): none for an empty batch, otherwise
the header followed by one block per non-none entry. -/
def createChangedOrdersMessage (em : String → List Char) (batch : List (Option Order)) :
    Option (List Char) :=
  if batch = [] then none
  else some (batch.foldl (msgStep em) (("🔄 <b>ORDER UPDATE DETECTED</b> 🔄\n\n").toList))

/-- The parsed-and-filtered order list for one side of one token
(whales_monitor.py lines 196-197 and 201-202): parse each raw record,
keep the parse results that are present and valid. -/
def keepValid (l : List (Option Order)) : List Order :=
  l.filterMap (fun o =>
    match o with
    | some x => if decide (0 < x.price) && decide (0 < x.amount) then some x else none
    | none => none)

/-- The valid BUY orders fetched for a token this cycle. fetched maps a
token and the request type string to the raw list the API returned. -/
def buyListOf (fetched : String → String → List RawOrder) (t : String) : List Order :=
  keepValid (((fetched t ("buy"))).map (fun r => parseOrder r ("BUY") t))

/-- The valid SELL orders fetched for a token this cycle. -/
def sellListOf (fetched : String → String → List RawOrder) (t : String) : List Order :=
  keepValid (((fetched t ("sell"))).map (fun r => parseOrder r ("SELL") t))

/-- The best BUY order for a token this cycle (line 198). -/
def bestBuyOf (fetched : String → String → List RawOrder) (t : String) : Option Order :=
  getBestOrder (buyListOf fetched t) ("BUY")

/-- The best SELL order for a token this cycle (line 203). -/
def bestSellOf (fetched : String → String → List RawOrder) (t : String) : Option Order :=
  getBestOrder (sellListOf fetched t) ("SELL")

/-- The snapshot stored into all_orders[token] (line 205). -/
def snapOf (fetched : String → String → List RawOrder) (t : String) : PairSnap :=
  { buy := bestBuyOf fetched t, sell := bestSellOf fetched t }

/-- The entries one token contributes to changed_orders this cycle
(lines 207-211): the best buy when its side changed, then the best sell
when its side changed. Either may itself be none, and is appended as
none in that case exactly as the source appends a None best order. -/
def sideChanges (fetched : String → String → List RawOrder)
    (prev : String → Option PairSnap) (t : String) : List (Option Order) :=
  (if hasOrderChanged (bestBuyOf fetched t) ((prev t).bind PairSnap.buy)
    then [bestBuyOf fetched t] else []) ++
  (if hasOrderChanged (bestSellOf fetched t) ((prev t).bind PairSnap.sell)
    then [bestSellOf fetched t] else [])

/-- Loop body of one token inside the polling cycle (lines 194-216):
extend the all_orders association list and the changed_orders batch. -/
def cycleStep (fetched : String → String → List RawOrder)
    (prev : String → Option PairSnap)
    (acc : List (String × PairSnap) × List (Option Order)) (t : String) :
    List (String × PairSnap) × List (Option Order) :=
  (acc.1 ++ [(t, snapOf fetched t)], acc.2 ++ sideChanges fetched prev t)

/-- One full polling cycle over all configured tokens (lines 192-218):
returns the new all_orders map, which replaces previous_orders
wholesale, and the changed_orders batch of the cycle. prev is the
lookup into the previous cycle's map (empty at startup). -/
def runCycle (tokens : List String) (fetched : String → String → List RawOrder)
    (prev : String → Option PairSnap) :
    List (String × PairSnap) × List (Option Order) :=
  tokens.foldl (cycleStep fetched prev) ([], [])

/-- The changed_orders batch of a cycle, written as a flat map. -/
def changedOrdersOf (tokens : List String) (fetched : String → String → List RawOrder)
    (prev : String → Option PairSnap) : List (Option Order) :=
  tokens.flatMap (sideChanges fetched prev)

/-- The decode rule in the words of the specification: the value of the
decimal string built as 0 dot, k zeros, then the trailing digits. -/
def subscriptDecodeSpec (k : Nat) (ds : List Char) : ℚ :=
  (digitsVal ds : ℚ) / (10 : ℚ) ^ (k + ds.length)

/-- The first-maximum characterization used for the selector claim. -/
def isFirstMaxBy (f : Order → ℚ) (l : List Order) (m : Order) : Prop :=
  ∃ l₁ l₂, l = l₁ ++ m :: l₂ ∧ (∀ x ∈ l₁, f x < f m) ∧ (∀ x ∈ l₂, f x ≤ f m)

/-- The Unicode subscript digit character for each digit value. -/
def subCharNat : Nat → Char
  | 0 => '₀'
  | 1 => '₁'
  | 2 => '₂'
  | 3 => '₃'
  | 4 => '₄'
  | 5 => '₅'
  | 6 => '₆'
  | 7 => '₇'
  | 8 => '₈'
  | _ => '₉'

/-- A raw BUY order with numeric price 1 and collateral 100. -/
def sampleRaw : RawOrder :=
  { id := some (PyVal.num 1), price := some (PyVal.num 1), collateral := some (PyVal.num 100) }

/-- A fetch stub: a single BUY order for the token TEA, nothing else. -/
def sampleFetch : String → String → List RawOrder :=
  fun t s => if t = ("TEA" : String) ∧ s = ("buy" : String) then [sampleRaw] else []

/-- The Order that parse_order builds from sampleRaw. -/
def sampleOrd : Order :=
  { id := some (PyVal.num 1), side := "BUY", price := 1, amount := 100,
    collateral := 100, token := "TEA" }

/-- A raw order with textual price 1 and the non-numeric collateral
text x. -/
def c7raw : RawOrder :=
  { id := none, price := some (PyVal.str (("1").toList)),
    collateral := some (PyVal.str (("x").toList)) }

/-- A raw order with numeric price 49 and collateral 1: the input on
which binary64 arithmetic breaks the exact amount-times-price
invariant. -/
def c9raw : RawOrder :=
  { id := none, price := some (PyVal.num 49), collateral := some (PyVal.num 1) }

/-- The Order the embedded (exact-decimal) normalizer builds from
c9raw. -/
def c9ord : Order :=
  { id := none, side := "BUY", price := 49, amount := 1 / 49,
    collateral := 1, token := "T" }

/-- IEEE-754 binary64 rounding (the arithmetic of a Python float) of a
positive value lying in the binade of exponent e, that is in the
interval from 2 to the e up to 2 to the e plus 1: the significand has
53 bits, so the value is rounded to the nearest integer multiple of
2 to the e minus 52, with ties going to the even multiple. The binade
membership of each argument is stated and proved where this function is
used; overflow and subnormals are outside the range considered. -/
def fl64at (e : ℤ) (q : ℚ) : ℚ :=
  (roundHalfEvenQ (q * (2 : ℚ) ^ ((52 : ℤ) - e)) : ℚ) * (2 : ℚ) ^ (e - (52 : ℤ))

/-! Helper lemmas. -/

lemma takeWhile_all {p : Char → Bool} : ∀ l : List Char, (∀ c ∈ l, p c = true) → l.takeWhile p = l := by
  intro l
  induction l with
  | nil => intro h; rfl
  | cons a t ih =>
    intro h
    have ha : p a = true := h a (List.mem_cons_self a t)
    have ht : t.takeWhile p = t := ih fun c hc => h c (List.mem_cons_of_mem a hc)
    simp [List.takeWhile_cons, ha, ht]

lemma dropWhile_all {p : Char → Bool} : ∀ l : List Char, (∀ c ∈ l, p c = true) → l.dropWhile p = [] := by
  intro l
  induction l with
  | nil => intro h; rfl
  | cons a t ih =>
    intro h
    have ha : p a = true := h a (List.mem_cons_self a t)
    have ht : t.dropWhile p = [] := ih fun c hc => h c (List.mem_cons_of_mem a hc)
    simp [List.dropWhile_cons, ha, ht]

lemma foldl_digitsStep (l : List Char) : ∀ a : Nat, l.foldl digitsStep a = a * 10 ^ l.length + digitsVal l := by
  induction l with
  | nil => intro a; simp [digitsVal]
  | cons c t ih =>
    intro a
    have h1 : (c :: t).foldl digitsStep a = t.foldl digitsStep (digitsStep a c) := rfl
    have h2 : digitsVal (c :: t) = t.foldl digitsStep (digitsStep 0 c) := rfl
    rw [h1, ih, h2, ih]
    simp [digitsStep, List.length_cons]
    ring

lemma digitsVal_append (xs ys : List Char) :
    digitsVal (xs ++ ys) = digitsVal xs * 10 ^ ys.length + digitsVal ys := by
  rw [digitsVal, List.foldl_append, foldl_digitsStep]
  rfl

lemma digitsVal_replicate_zero (k : Nat) : digitsVal (List.replicate k '0') = 0 := by
  induction k with
  | zero => rfl
  | succ n ih =>
    have h : List.replicate (n + 1) '0' = '0' :: List.replicate n '0' := rfl
    rw [h]
    show (List.replicate n '0').foldl digitsStep (digitsStep 0 '0') = 0
    have h0 : digitsStep 0 '0' = 0 := rfl
    rw [h0]
    exact ih

/-- Evaluation of the float model on a string of the form 0 dot digits. -/
lemma pyFloat_zero_dot (ks : List Char) (h : ∀ c ∈ ks, c.isDigit = true) :
    pyFloatOfString ('0' :: '.' :: ks) = some ((digitsVal ks : ℚ) / (10 : ℚ) ^ ks.length) := by
  show (if (['0'] = [] ∧ ks.takeWhile Char.isDigit = []) then none
    else
      let mant : ℚ := (digitsVal (['0'] ++ ks.takeWhile Char.isDigit) : ℚ) /
        (10 : ℚ) ^ (ks.takeWhile Char.isDigit).length
      match ks.dropWhile Char.isDigit with
      | [] => some mant
      | e :: r =>
        if e = 'e' ∨ e = 'E' then
          let esg := stripSign r
          let expDs := esg.2.takeWhile Char.isDigit
          let r₂ := esg.2.dropWhile Char.isDigit
          if expDs = [] ∨ r₂ ≠ [] then none
          else some (mant * (if esg.1 then ((10 : ℚ) ^ digitsVal expDs)⁻¹ else (10 : ℚ) ^ digitsVal expDs))
        else none) = some ((digitsVal ks : ℚ) / (10 : ℚ) ^ ks.length)
  rw [takeWhile_all ks h, dropWhile_all ks h]
  have hne : ¬ ((['0'] : List Char) = [] ∧ ks = []) := by
    intro hc
    exact List.cons_ne_nil '0' [] hc.1
  rw [if_neg hne]
  have hdv : digitsVal (['0'] ++ ks) = digitsVal ks := by
    rw [digitsVal_append]
    have h0 : digitsVal ['0'] = 0 := rfl
    rw [h0, Nat.zero_mul, Nat.zero_add]
  simp only [hdv]

lemma pyFold_le (f : Order → ℚ) : ∀ (l : List Order) (a : Order), ∀ x ∈ a :: l, f x ≤ f (pyFold f a l) := by
  intro l
  induction l with
  | nil =>
    intro a x hx
    rcases List.mem_singleton.mp hx with rfl
    exact le_refl _
  | cons b t ih =>
    intro a x hx
    have hstep : pyFold f a (b :: t) = pyFold f (if f a < f b then b else a) t := rfl
    rw [hstep]
    set c := if f a < f b then b else a with hc
    have hac : f a ≤ f c := by
      by_cases h : f a < f b
      · rw [hc, if_pos h]; exact le_of_lt h
      · rw [hc, if_neg h]
    have hbc : f b ≤ f c := by
      by_cases h : f a < f b
      · rw [hc, if_pos h]
      · rw [hc, if_neg h]; exact le_of_not_lt h
    have hcle : f c ≤ f (pyFold f c t) := ih c c (List.mem_cons_self c t)
    rcases List.mem_cons.mp hx with rfl | hx2
    · exact le_trans hac hcle
    · rcases List.mem_cons.mp hx2 with rfl | hx3
      · exact le_trans hbc hcle
      · exact ih c x (List.mem_cons_of_mem c hx3)

/-- The Python max over a nonempty list returns the first element
attaining the maximal key: everything before it is strictly smaller,
everything after it is at most equal. -/
lemma pyFold_split (f : Order → ℚ) : ∀ (l : List Order) (a : Order),
    ∃ l₁ l₂, a :: l = l₁ ++ pyFold f a l :: l₂ ∧
      (∀ x ∈ l₁, f x < f (pyFold f a l)) ∧ (∀ x ∈ l₂, f x ≤ f (pyFold f a l)) := by
  intro l
  induction l with
  | nil =>
    intro a
    refine ⟨[], [], rfl, ?_, ?_⟩
    · intro x hx; cases hx
    · intro x hx; cases hx
  | cons b t ih =>
    intro a
    have hstep : pyFold f a (b :: t) = pyFold f (if f a < f b then b else a) t := rfl
    by_cases h : f a < f b
    · rw [hstep, if_pos h]
      obtain ⟨l₁, l₂, heq, h₁, h₂⟩ := ih b
      refine ⟨a :: l₁, l₂, by rw [List.cons_append, ← heq], ?_, h₂⟩
      intro x hx
      rcases List.mem_cons.mp hx with rfl | hx2
      · exact lt_of_lt_of_le h (pyFold_le f t b b (List.mem_cons_self b t))
      · exact h₁ x hx2
    · rw [hstep, if_neg h]
      obtain ⟨l₁, l₂, heq, h₁, h₂⟩ := ih a
      rcases l₁ with _ | ⟨a₁, l₁'⟩
      · simp only [List.nil_append] at heq
        have hma : pyFold f a t = a := by
          injection heq with h1 h2
          exact h1.symm
        have hlt : l₂ = t := by
          injection heq with h1 h2
          exact h2.symm
        refine ⟨[], b :: l₂, ?_, ?_, ?_⟩
        · rw [List.nil_append, hma, hlt]
        · intro x hx; cases hx
        · intro x hx
          rcases List.mem_cons.mp hx with rfl | hx2
          · rw [hma]; exact le_of_not_lt h
          · exact h₂ x hx2
      · rw [List.cons_append] at heq
        injection heq with h1 h2
        subst h1
        refine ⟨a :: b :: l₁', l₂, ?_, ?_, h₂⟩
        · rw [List.cons_append, List.cons_append, ← h2]
        · intro x hx
          have ha₁ : f a < f (pyFold f a t) := h₁ a (List.mem_cons_self a l₁')
          rcases List.mem_cons.mp hx with rfl | hx2
          · exact ha₁
          · rcases List.mem_cons.mp hx2 with rfl | hx3
            · exact lt_of_le_of_lt (le_of_not_lt h) ha₁
            · exact h₁ x (List.mem_cons_of_mem a hx3)

lemma runCycle_acc (fetched : String → String → List RawOrder) (prev : String → Option PairSnap) :
    ∀ (tokens : List String) (A : List (String × PairSnap)) (C : List (Option Order)),
      tokens.foldl (cycleStep fetched prev) (A, C) =
        (A ++ tokens.map (fun t => (t, snapOf fetched t)), C ++ changedOrdersOf tokens fetched prev) := by
  intro tokens
  induction tokens with
  | nil => intro A C; simp [changedOrdersOf]
  | cons t ts ih =>
    intro A C
    rw [List.foldl_cons]
    show List.foldl (cycleStep fetched prev)
      (A ++ [(t, snapOf fetched t)], C ++ sideChanges fetched prev t) ts = _
    rw [ih]
    simp [changedOrdersOf, List.append_assoc]

lemma runCycle_fst (tokens : List String) (fetched : String → String → List RawOrder)
    (prev : String → Option PairSnap) :
    (runCycle tokens fetched prev).1 = tokens.map (fun t => (t, snapOf fetched t)) := by
  rw [runCycle, runCycle_acc]
  simp

lemma runCycle_snd (tokens : List String) (fetched : String → String → List RawOrder)
    (prev : String → Option PairSnap) :
    (runCycle tokens fetched prev).2 = changedOrdersOf tokens fetched prev := by
  rw [runCycle, runCycle_acc]
  simp

lemma lookup_map_self (g : String → PairSnap) :
    ∀ (tokens : List String) (t : String),
      ((tokens.map (fun u => (u, g u))).lookup t) = if t ∈ tokens then some (g t) else none := by
  intro tokens
  induction tokens with
  | nil => intro t; simp [List.lookup]
  | cons a ts ih =>
    intro t
    by_cases h : t = a
    · subst h
      simp [List.lookup]
    · have hba : (t == a) = false := beq_false_of_ne h
      simp [List.lookup, hba, ih t, List.mem_cons, h]

lemma mem_changedOrders (tokens : List String) (fetched : String → String → List RawOrder)
    (prev : String → Option PairSnap) (t : String) (x : Option Order)
    (ht : t ∈ tokens) (hx : x ∈ sideChanges fetched prev t) :
    x ∈ changedOrdersOf tokens fetched prev :=
  List.mem_flatMap.mpr ⟨t, ht, hx⟩

lemma foldl_msg_extends (em : String → List Char) :
    ∀ (batch : List (Option Order)) (acc : List Char),
      ∃ w, batch.foldl (msgStep em) acc = acc ++ w := by
  intro batch
  induction batch with
  | nil => intro acc; exact ⟨[], by simp⟩
  | cons x r ih =>
    intro acc
    rcases x with _ | o
    · obtain ⟨w, hw⟩ := ih acc
      exact ⟨w, by rw [List.foldl_cons]; exact hw⟩
    · obtain ⟨w, hw⟩ := ih (acc ++ orderBlock em o)
      refine ⟨orderBlock em o ++ w, ?_⟩
      rw [List.foldl_cons]
      show List.foldl (msgStep em) (acc ++ orderBlock em o) r = acc ++ (orderBlock em o ++ w)
      rw [hw, List.append_assoc]

lemma foldl_msg_mem (em : String → List Char) (o : Order) :
    ∀ (batch : List (Option Order)) (acc : List Char), some o ∈ batch →
      ∃ u v, batch.foldl (msgStep em) acc = u ++ orderBlock em o ++ v := by
  intro batch
  induction batch with
  | nil => intro acc hmem; cases hmem
  | cons x r ih =>
    intro acc hmem
    rcases List.mem_cons.mp hmem with heq | hmem2
    · subst heq
      obtain ⟨w, hw⟩ := foldl_msg_extends em r (acc ++ orderBlock em o)
      refine ⟨acc, w, ?_⟩
      rw [List.foldl_cons]
      show List.foldl (msgStep em) (acc ++ orderBlock em o) r = acc ++ orderBlock em o ++ w
      rw [hw]
    · obtain ⟨u, v, huv⟩ := ih (msgStep em acc x) hmem2
      exact ⟨u, v, by rw [List.foldl_cons]; exact huv⟩

/-- A changed order present in a nonempty batch appears as its block
somewhere inside the produced message. -/
lemma message_contains_block (em : String → List Char) (batch : List (Option Order)) (o : Order)
    (hmem : some o ∈ batch) :
    ∃ msg, createChangedOrdersMessage em batch = some msg ∧
      ∃ u v, msg = u ++ orderBlock em o ++ v := by
  have hne : batch ≠ [] := List.ne_nil_of_mem hmem
  obtain ⟨u, v, huv⟩ :=
    foldl_msg_mem em o batch (("🔄 <b>ORDER UPDATE DETECTED</b> 🔄\n\n").toList) hmem
  refine ⟨batch.foldl (msgStep em) (("🔄 <b>ORDER UPDATE DETECTED</b> 🔄\n\n").toList), ?_, u, v, huv⟩
  rw [createChangedOrdersMessage, if_neg hne]

/-- Round-half-even at a value below the halfway point rounds down. -/
lemma roundHalfEvenQ_eq_down (q : ℚ) (n : ℤ) (h1 : (n : ℚ) ≤ q) (h2 : q < (n : ℚ) + 1/2) :
    roundHalfEvenQ q = n := by
  have hfl : q.floor = n := by
    show ⌊q⌋ = n
    rw [Int.floor_eq_iff]
    refine ⟨h1, ?_⟩
    have hhalf : (n : ℚ) + 1/2 ≤ (n : ℚ) + 1 := by norm_num
    exact lt_of_lt_of_le h2 hhalf
  simp only [roundHalfEvenQ]
  rw [hfl, if_pos]
  linarith

/-- Evaluation rule for binary64 rounding when the scaled value falls
below the halfway point of its grid cell. -/
lemma fl64at_eq_down (e : ℤ) (q : ℚ) (n : ℤ)
    (h1 : (n : ℚ) ≤ q * (2 : ℚ) ^ ((52 : ℤ) - e))
    (h2 : q * (2 : ℚ) ^ ((52 : ℤ) - e) < (n : ℚ) + 1/2) :
    fl64at e q = (n : ℚ) * (2 : ℚ) ^ (e - (52 : ℤ)) := by
  rw [fl64at, roundHalfEvenQ_eq_down _ n h1 h2]

/-! Evaluation of the sample values. -/

lemma sample_parse : parseOrder sampleRaw ("BUY") ("TEA") = some sampleOrd := by
  norm_num [parseOrder, sampleRaw, sampleOrd, pyFloat, parseSpecialPrice]

lemma sample_bestBuy : bestBuyOf sampleFetch ("TEA") = some sampleOrd := by
  have hf : sampleFetch ("TEA") ("buy") = [sampleRaw] := rfl
  rw [bestBuyOf, buyListOf, hf, List.map_cons, List.map_nil, sample_parse]
  decide

lemma sample_bestSell : bestSellOf sampleFetch ("TEA") = none := rfl

lemma sample_batch : (runCycle (["TEA"]) sampleFetch (fun _ => none)).2 = [some sampleOrd] := by
  rw [runCycle_snd]
  show sideChanges sampleFetch (fun _ => none) ("TEA") ++ [] = [some sampleOrd]
  rw [List.append_nil, sideChanges, sample_bestBuy, sample_bestSell]
  decide

/-! Claim theorems. -/

/-- C3: BestOrderSelector.select filters to orders with positive price
and positive amount and returns none exactly when nothing survives; for
BUY it returns the first surviving order of maximal price, for SELL the
first surviving order of maximal collateral. -/
theorem c3_best_order_selection (orders : List Order) :
    (getBestOrder orders ("BUY") = none ↔ validOf orders = []) ∧
    (getBestOrder orders ("SELL") = none ↔ validOf orders = []) ∧
    (∀ m, getBestOrder orders ("BUY") = some m → isFirstMaxBy Order.price (validOf orders) m) ∧
    (∀ m, getBestOrder orders ("SELL") = some m →
      isFirstMaxBy Order.collateral (validOf orders) m) := by
  by_cases ho : orders = []
  · subst ho
    refine ⟨by simp [getBestOrder, validOf], by simp [getBestOrder, validOf], ?_, ?_⟩
    · intro m hm; simp [getBestOrder] at hm
    · intro m hm; simp [getBestOrder] at hm
  · by_cases hv : validOf orders = []
    · refine ⟨by simp [getBestOrder, ho, hv], by simp [getBestOrder, ho, hv], ?_, ?_⟩
      · intro m hm; simp [getBestOrder, ho, hv] at hm
      · intro m hm; simp [getBestOrder, ho, hv] at hm
    · obtain ⟨v, vs, hval⟩ := List.exists_cons_of_ne_nil hv
      have hbuy : getBestOrder orders ("BUY") = some (pyFold (fun o => o.price) v vs) := by
        simp [getBestOrder, ho, hv, hval, pyMaxBy]
      have hsell : getBestOrder orders ("SELL") = some (pyFold (fun o => o.collateral) v vs) := by
        simp [getBestOrder, ho, hv, hval, pyMaxBy]
      refine ⟨?_, ?_, ?_, ?_⟩
      · rw [hbuy]; simp [hv]
      · rw [hsell]; simp [hv]
      · intro m hm
        rw [hbuy] at hm
        injection hm with hm'
        subst hm'
        rw [hval]
        obtain ⟨l₁, l₂, heq, h₁, h₂⟩ := pyFold_split (fun o => o.price) vs v
        exact ⟨l₁, l₂, heq, h₁, h₂⟩
      · intro m hm
        rw [hsell] at hm
        injection hm with hm'
        subst hm'
        rw [hval]
        obtain ⟨l₁, l₂, heq, h₁, h₂⟩ := pyFold_split (fun o => o.collateral) vs v
        exact ⟨l₁, l₂, heq, h₁, h₂⟩

/-- C3 witness: on a concrete two-order list the selector picks the
maximal-price order for BUY, in first-maximum position. -/
theorem c3_best_order_selection_witness :
    isFirstMaxBy Order.price
      (validOf [ { id := none, side := "SELL", price := 5, amount := 1, collateral := 5, token := "T" },
                 { id := none, side := "SELL", price := 1, amount := 100, collateral := 100, token := "T" } ])
      { id := none, side := "SELL", price := 5, amount := 1, collateral := 5, token := "T" } :=
  (c3_best_order_selection _).2.2.1 _ (by decide)

/-- C4: the differ is false on two absent orders, true when exactly one
is present, and on two present orders true exactly when price, amount or
collateral differs by exact inequality. -/
theorem c4_snapshot_differ :
    hasOrderChanged none none = false ∧
    (∀ x : Order, hasOrderChanged (some x) none = true) ∧
    (∀ x : Order, hasOrderChanged none (some x) = true) ∧
    (∀ x y : Order, hasOrderChanged (some x) (some y) = true ↔
      (x.price ≠ y.price ∨ x.amount ≠ y.amount ∨ x.collateral ≠ y.collateral)) := by
  refine ⟨rfl, fun x => rfl, fun x => rfl, fun x y => ?_⟩
  simp [hasOrderChanged]
  tauto

/-- C4 witness: the differ applied through the theorem at concrete
orders. -/
theorem c4_snapshot_differ_witness : hasOrderChanged (some sampleOrd) none = true :=
  c4_snapshot_differ.2.1 sampleOrd

/-- C9: the program computes amount as collateral divided by price in
IEEE-754 binary64, not in exact decimals, and the exact invariant fails
on it. At the failing input price 49 and collateral 1 the normalizer's
division is the binary64 rounding of 1/49, and multiplying it back by
49 in binary64 yields one ulp below 1, not the collateral 1. The first
conjunct evaluates the embedded normalizer at the failing input, showing
the amount the code computes is the division collateral by price; the
binade bounds show that the two grids used for the roundings are the
binary64 grids of the values being rounded; the last conjunct is the
violation of the claimed exact identity under binary64 evaluation. -/
theorem c9_float_divergence :
    (parseOrder c9raw ("BUY") ("T") = some c9ord ∧
      c9ord.amount = 1 / 49 ∧ c9ord.price = 49 ∧ c9ord.collateral = 1) ∧
    ((2 : ℚ) ^ (-6 : ℤ) ≤ 1 / 49 ∧ (1 / 49 : ℚ) < (2 : ℚ) ^ (-5 : ℤ)) ∧
    ((2 : ℚ) ^ (-1 : ℤ) ≤ fl64at (-6) (1 / 49) * 49 ∧
      fl64at (-6) (1 / 49) * 49 < (2 : ℚ) ^ (0 : ℤ)) ∧
    fl64at (-1) (fl64at (-6) (1 / 49) * 49) ≠ (1 : ℚ) := by
  have h1 : fl64at (-6) (1 / 49) = (5882252574524729 : ℚ) * (2 : ℚ) ^ ((-6 : ℤ) - 52) :=
    fl64at_eq_down (-6) (1 / 49) 5882252574524729 (by norm_num) (by norm_num)
  have h2 : fl64at (-1) (fl64at (-6) (1 / 49) * 49) =
      (9007199254740991 : ℚ) * (2 : ℚ) ^ ((-1 : ℤ) - 52) := by
    rw [h1]
    exact fl64at_eq_down (-1) _ 9007199254740991 (by norm_num) (by norm_num)
  refine ⟨?_, by norm_num, ?_, ?_⟩
  · refine ⟨?_, rfl, rfl, rfl⟩
    norm_num [parseOrder, c9raw, c9ord, pyFloat, parseSpecialPrice]
  · rw [h1]
    constructor
    · norm_num
    · norm_num
  · rw [h2]
    norm_num

/-- C10 counterexample: invoked with the unrecognized side HOLD on a
list whose maximal-price and maximal-collateral orders differ, the
selector silently returns the maximal-collateral order instead of
surfacing a defect or skipping the call. -/
theorem c10_side_counterexample :
    getBestOrder [ { id := none, side := "SELL", price := 5, amount := 1, collateral := 5, token := "T" },
                   { id := none, side := "SELL", price := 1, amount := 100, collateral := 100, token := "T" } ]
        ("HOLD") =
      some { id := none, side := "SELL", price := 1, amount := 100, collateral := 100, token := "T" } ∧
    getBestOrder [ { id := none, side := "SELL", price := 5, amount := 1, collateral := 5, token := "T" },
                   { id := none, side := "SELL", price := 1, amount := 100, collateral := 100, token := "T" } ]
        ("HOLD") ≠ none := by
  constructor
  · decide
  · decide

/-- C10 (amended): a side other than BUY, recognized or not, silently
takes the SELL branch: the call behaves exactly like a SELL selection
and no defect is surfaced. -/
theorem c10_unrecognized_side (orders : List Order) (side : String)
    (h : side ≠ ("BUY" : String)) :
    getBestOrder orders side = getBestOrder orders ("SELL") := by
  by_cases ho : orders = []
  · subst ho; rfl
  · by_cases hv : validOf orders = []
    · simp [getBestOrder, ho, hv]
    · simp [getBestOrder, ho, hv, h]

/-- C10 amended witness: an unrecognized side at a concrete list agrees
with the SELL selection. -/
theorem c10_unrecognized_side_witness :
    getBestOrder [sampleOrd] ("XX") = getBestOrder [sampleOrd] ("SELL") :=
  c10_unrecognized_side [sampleOrd] ("XX") (by decide)

/-- C7 counterexample: a raw order whose collateral field is present but
not numeric makes construction throw, so the normalizer returns none; it
does not treat the invalid collateral as 0 and return an Order. -/
theorem c7_normalize_counterexample :
    parseOrder c7raw ("BUY") ("T") = none ∧
    ¬ ∃ ord : Order, parseOrder c7raw ("BUY") ("T") = some ord ∧ ord.collateral = 0 := by
  have h : parseOrder c7raw ("BUY") ("T") = none := rfl
  refine ⟨h, ?_⟩
  rintro ⟨ord, h2, _⟩
  rw [h] at h2
  cases h2

/-- C7 (amended): the normalizer treats a missing collateral field as 0;
it returns none exactly when the collateral field is present but not
convertible to a number (construction throws); otherwise it always
returns a constructed Order, even one with zero price or amount. -/
theorem c7_normalize_collateral (raw : RawOrder) (side token : String) :
    (parseOrder raw side token = none ↔ pyFloat (raw.collateral.getD (PyVal.num 0)) = none) ∧
    (raw.collateral = none → ∃ ord, parseOrder raw side token = some ord ∧ ord.collateral = 0) := by
  constructor
  · rcases hc : pyFloat (raw.collateral.getD (PyVal.num 0)) with _ | c
    · simp [parseOrder, hc]
    · simp [parseOrder, hc]
  · intro hnone
    rw [parseOrder, hnone]
    exact ⟨_, rfl, rfl⟩

/-- C7 amended witness: a record with no collateral field normalizes to
an order with collateral 0. -/
theorem c7_normalize_collateral_witness :
    ∃ ord, parseOrder { id := none, price := none, collateral := none } ("BUY") ("T") = some ord ∧
      ord.collateral = 0 :=
  (c7_normalize_collateral { id := none, price := none, collateral := none } ("BUY") ("T")).2 rfl

/-! Subscript decoding lemmas. -/

lemma subscriptVal_subChar : ∀ k : Fin 10, subscriptVal? (subCharNat k.val) = some k.val := by
  decide

lemma subscriptSplit_subscript (k : Fin 10) (ds : List Char) (hne : ds ≠ [])
    (hdig : ∀ c ∈ ds, c.isDigit = true) :
    subscriptSplit ('0' :: '.' :: '0' :: subCharNat k.val :: ds) = some (k.val, ds) := by
  show (match subscriptVal? (subCharNat k.val) with
    | some j =>
      let t := ds.takeWhile Char.isDigit
      if t = [] then none else some (j, t)
    | none => none) = some (k.val, ds)
  rw [subscriptVal_subChar k]
  show (let t := ds.takeWhile Char.isDigit
    if t = [] then none else some (k.val, t)) = some (k.val, ds)
  rw [takeWhile_all ds hdig]
  rw [if_neg hne]

lemma parse_subscript_general (k : Fin 10) (ds : List Char) (hne : ds ≠ [])
    (hdig : ∀ c ∈ ds, c.isDigit = true) :
    parseSpecialPrice (PyVal.str ('0' :: '.' :: '0' :: subCharNat k.val :: ds)) =
      subscriptDecodeSpec k.val ds := by
  have hsplit := subscriptSplit_subscript k ds hne hdig
  show (match subscriptSplit ('0' :: '.' :: '0' :: subCharNat k.val :: ds) with
    | some (j, t) => (pyFloatOfString ('0' :: '.' :: (List.replicate j '0' ++ t))).getD 0
    | none =>
        (pyFloatOfString ('0' :: '.' :: '0' :: subCharNat k.val :: ds)).getD 0) =
      subscriptDecodeSpec k.val ds
  rw [hsplit]
  show (pyFloatOfString ('0' :: '.' :: (List.replicate k.val '0' ++ ds))).getD 0 =
    subscriptDecodeSpec k.val ds
  have hall : ∀ c ∈ List.replicate k.val '0' ++ ds, c.isDigit = true := by
    intro c hc
    rcases List.mem_append.mp hc with h1 | h2
    · rw [List.eq_of_mem_replicate h1]; rfl
    · exact hdig c h2
  rw [pyFloat_zero_dot _ hall]
  show (digitsVal (List.replicate k.val '0' ++ ds) : ℚ) /
      (10 : ℚ) ^ (List.replicate k.val '0' ++ ds).length = subscriptDecodeSpec k.val ds
  rw [digitsVal_append, digitsVal_replicate_zero, Nat.zero_mul, Nat.zero_add,
    List.length_append, List.length_replicate]
  rfl

lemma parse_sub_ex1 : parseSpecialPrice (PyVal.str (("0.0₃78").toList)) = 78 / 100000 := by
  have hs : ("0.0₃78").toList = '0' :: '.' :: '0' :: subCharNat (3 : Fin 10).val :: [ '7', '8' ] := rfl
  rw [hs, parse_subscript_general (3 : Fin 10) [ '7', '8' ] (by decide) (by decide)]
  have hd : digitsVal [ '7', '8' ] = 78 := by decide
  have hk : ((3 : Fin 10) : Nat) = 3 := rfl
  rw [subscriptDecodeSpec, hd, hk]
  norm_num

lemma parse_sub_ex2 : parseSpecialPrice (PyVal.str (("0.0₀5").toList)) = 1 / 2 := by
  have hs : ("0.0₀5").toList = '0' :: '.' :: '0' :: subCharNat (0 : Fin 10).val :: [ '5' ] := rfl
  rw [hs, parse_subscript_general (0 : Fin 10) [ '5' ] (by decide) (by decide)]
  have hd : digitsVal [ '5' ] = 5 := by decide
  have hk : ((0 : Fin 10) : Nat) = 0 := rfl
  rw [subscriptDecodeSpec, hd, hk]
  norm_num

/-- C2 counterexample: on the input 0.0 subscript-zero 5 the parser
yields 0.5, the value of 0 dot, zero zeros, then 5, and not the 0.05
asserted by the claim. -/
theorem c2_subscript_counterexample :
    parseSpecialPrice (PyVal.str (("0.0₀5").toList)) = 1 / 2 ∧
    parseSpecialPrice (PyVal.str (("0.0₀5").toList)) ≠ 1 / 20 := by
  refine ⟨parse_sub_ex2, ?_⟩
  rw [parse_sub_ex2]
  norm_num

/-- C2 (amended): every input of the subscript form decodes to the value
of the decimal string 0 dot, k zeros, then the trailing digits; in
particular the subscript-3 example is 0.00078 and the subscript-0
example is 0.5. -/
theorem c2_subscript_decode :
    (∀ (k : Fin 10) (ds : List Char), ds ≠ [] → (∀ c ∈ ds, c.isDigit = true) →
      parseSpecialPrice (PyVal.str ('0' :: '.' :: '0' :: subCharNat k.val :: ds)) =
        subscriptDecodeSpec k.val ds) ∧
    parseSpecialPrice (PyVal.str (("0.0₃78").toList)) = 78 / 100000 ∧
    parseSpecialPrice (PyVal.str (("0.0₀5").toList)) = 1 / 2 :=
  ⟨parse_subscript_general, parse_sub_ex1, parse_sub_ex2⟩

/-- C2 amended witness: the decode rule applied at subscript 3 with
trailing digits 7 and 8. -/
theorem c2_subscript_decode_witness :
    parseSpecialPrice (PyVal.str ('0' :: '.' :: '0' :: subCharNat (3 : Fin 10).val :: [ '7', '8' ])) =
      subscriptDecodeSpec (3 : Fin 10).val [ '7', '8' ] :=
  c2_subscript_decode.1 (3 : Fin 10) [ '7', '8' ] (by decide) (by decide)

/-- C8: the price parser is total over all raw shapes: numeric input is
returned unchanged, a string that does not match the subscript pattern
and does not parse as a decimal yields 0, and non-number non-string
input yields 0. -/
theorem c8_parse_total (v : PyVal) :
    (∀ q, v = PyVal.num q → parseSpecialPrice v = q) ∧
    (∀ s, v = PyVal.str s → matchesSubscript s = false → pyFloatOfString s = none →
      parseSpecialPrice v = 0) ∧
    ((v = PyVal.pynull ∨ v = PyVal.other) → parseSpecialPrice v = 0) := by
  refine ⟨?_, ?_, ?_⟩
  · rintro q rfl
    rfl
  · rintro s rfl hm hf
    have hsplit : subscriptSplit s = none := by
      rcases hx : subscriptSplit s with _ | p
      · rfl
      · rw [matchesSubscript, hx] at hm
        cases hm
    show (match subscriptSplit s with
      | some (j, t) => (pyFloatOfString ('0' :: '.' :: (List.replicate j '0' ++ t))).getD 0
      | none => (pyFloatOfString s).getD 0) = (0 : ℚ)
    rw [hsplit]
    show (pyFloatOfString s).getD 0 = (0 : ℚ)
    rw [hf]
    rfl
  · rintro (rfl | rfl) <;> rfl

/-- C8 witness: the parser applied through the theorem to an
unparseable string yields 0. -/
theorem c8_parse_total_witness : parseSpecialPrice (PyVal.str (("abc").toList)) = 0 :=
  (c8_parse_total (PyVal.str (("abc").toList))).2.1 (("abc").toList) rfl (by decide) (by decide)

/-- C1 counterexample: starting from the empty MonitorState, a first
cycle that fetches one valid BUY order for TEA produces a nonempty
alert batch and a change message for the sink, contradicting the claim
that the first cycle appends nothing and sends no change alert. -/
theorem c1_first_cycle_counterexample :
    (runCycle (["TEA"]) sampleFetch (fun _ => none)).2 ≠ [] ∧
    createChangedOrdersMessage (fun _ => [])
        ((runCycle (["TEA"]) sampleFetch (fun _ => none)).2) ≠ none := by
  constructor
  · rw [sample_batch]
    exact List.cons_ne_nil _ _
  · rw [sample_batch, createChangedOrdersMessage, if_neg (List.cons_ne_nil _ _)]
    exact Option.some_ne_none _

/-- C1 (amended): the first-cycle special case covers only the initial
console display; for alerting, every best order present on the first
cycle compares as changed against the empty state, is appended to the
batch, and a change message is produced and handed to the sink, while
the state is populated with the cycle's snapshots. -/
theorem c1_first_cycle_alerts (tokens : List String)
    (fetched : String → String → List RawOrder) (em : String → List Char)
    (t : String) (o : Order) (ht : t ∈ tokens)
    (ho : bestBuyOf fetched t = some o ∨ bestSellOf fetched t = some o) :
    some o ∈ (runCycle tokens fetched (fun _ => none)).2 ∧
    (runCycle tokens fetched (fun _ => none)).2 ≠ [] ∧
    createChangedOrdersMessage em ((runCycle tokens fetched (fun _ => none)).2) ≠ none ∧
    ((runCycle tokens fetched (fun _ => none)).1).lookup t = some (snapOf fetched t) := by
  have hmem : some o ∈ sideChanges fetched (fun _ => none) t := by
    rcases ho with hb | hs
    · rw [sideChanges, hb]
      exact List.mem_append_left _ (List.mem_singleton.mpr rfl)
    · rw [sideChanges, hs]
      exact List.mem_append_right _ (List.mem_singleton.mpr rfl)
  have hmem2 : some o ∈ (runCycle tokens fetched (fun _ => none)).2 := by
    rw [runCycle_snd]
    exact mem_changedOrders tokens fetched _ t (some o) ht hmem
  have hne : (runCycle tokens fetched (fun _ => none)).2 ≠ [] :=
    List.ne_nil_of_mem hmem2
  refine ⟨hmem2, hne, ?_, ?_⟩
  · rw [createChangedOrdersMessage, if_neg hne]
    exact Option.some_ne_none _
  · rw [runCycle_fst, lookup_map_self, if_pos ht]

/-- C1 amended witness: the first cycle with a single TEA BUY order
queues that order, produces a message, and stores the snapshot. -/
theorem c1_first_cycle_alerts_witness :
    some sampleOrd ∈ (runCycle (["TEA"]) sampleFetch (fun _ => none)).2 ∧
    (runCycle (["TEA"]) sampleFetch (fun _ => none)).2 ≠ [] ∧
    createChangedOrdersMessage (fun _ => [])
        ((runCycle (["TEA"]) sampleFetch (fun _ => none)).2) ≠ none ∧
    ((runCycle (["TEA"]) sampleFetch (fun _ => none)).1).lookup ("TEA") =
      some (snapOf sampleFetch ("TEA")) :=
  c1_first_cycle_alerts (["TEA"]) sampleFetch (fun _ => []) ("TEA") sampleOrd
    (List.mem_singleton.mpr rfl) (Or.inl sample_bestBuy)

/-- C5: after a cycle the snapshot map holds exactly this cycle's
per-pair results, independent of the prior state; and when a side whose
best order existed in cycle one yields no valid order in cycle two, the
cycle-two comparison for that side reports changed, and the
disappearance is appended to the batch. -/
theorem c5_state_replacement (tokens : List String)
    (f₁ f₂ : String → String → List RawOrder) (prev₀ : String → Option PairSnap)
    (t : String) (o : Order) :
    (∀ u, ((runCycle tokens f₁ prev₀).1).lookup u =
      if u ∈ tokens then some (snapOf f₁ u) else none) ∧
    (t ∈ tokens → bestBuyOf f₁ t = some o → bestBuyOf f₂ t = none →
      hasOrderChanged (bestBuyOf f₂ t)
          ((((runCycle tokens f₁ prev₀).1).lookup t).bind PairSnap.buy) = true ∧
      none ∈ (runCycle tokens f₂
        (fun u => ((runCycle tokens f₁ prev₀).1).lookup u)).2) := by
  have hfst : ∀ u, ((runCycle tokens f₁ prev₀).1).lookup u =
      if u ∈ tokens then some (snapOf f₁ u) else none := by
    intro u
    rw [runCycle_fst, lookup_map_self]
  refine ⟨hfst, ?_⟩
  intro ht hb1 hb2
  have hlook : ((runCycle tokens f₁ prev₀).1).lookup t = some (snapOf f₁ t) := by
    rw [hfst t, if_pos ht]
  have hbuy : (((runCycle tokens f₁ prev₀).1).lookup t).bind PairSnap.buy = some o := by
    rw [hlook]
    exact hb1
  constructor
  · rw [hb2, hbuy]
    rfl
  · rw [runCycle_snd]
    apply mem_changedOrders _ _ _ t _ ht
    rw [sideChanges]
    have hcond : hasOrderChanged (bestBuyOf f₂ t)
        (((fun u => ((runCycle tokens f₁ prev₀).1).lookup u) t).bind PairSnap.buy) = true := by
      rw [hb2]
      show hasOrderChanged none ((((runCycle tokens f₁ prev₀).1).lookup t).bind PairSnap.buy) = true
      rw [hbuy]
      rfl
    rw [hcond, hb2]
    exact List.mem_append_left _ (List.mem_singleton.mpr rfl)

/-- C5 witness: a concrete two-cycle run where the TEA BUY order of
cycle one disappears in cycle two. -/
theorem c5_state_replacement_witness :
    hasOrderChanged (bestBuyOf (fun _ _ => ([] : List RawOrder)) ("TEA"))
        ((((runCycle (["TEA"]) sampleFetch (fun _ => none)).1).lookup ("TEA")).bind PairSnap.buy) =
      true ∧
    none ∈ (runCycle (["TEA"]) (fun _ _ => ([] : List RawOrder))
      (fun u => ((runCycle (["TEA"]) sampleFetch (fun _ => none)).1).lookup u)).2 :=
  (c5_state_replacement (["TEA"]) sampleFetch (fun _ _ => []) (fun _ => none)
    ("TEA") sampleOrd).2 (List.mem_singleton.mpr rfl) sample_bestBuy rfl

/-- C6: whenever the differ reports a change on the BUY or SELL side of
a pair and that side currently has a best order, the order is queued in
the cycle's batch and its formatted block occurs inside the alert
message handed to the sink. -/
theorem c6_changed_alerted (tokens : List String)
    (fetched : String → String → List RawOrder) (prev : String → Option PairSnap)
    (em : String → List Char) (t : String) (o : Order) (ht : t ∈ tokens)
    (hcase :
      (hasOrderChanged (bestBuyOf fetched t) ((prev t).bind PairSnap.buy) = true ∧
        bestBuyOf fetched t = some o) ∨
      (hasOrderChanged (bestSellOf fetched t) ((prev t).bind PairSnap.sell) = true ∧
        bestSellOf fetched t = some o)) :
    some o ∈ (runCycle tokens fetched prev).2 ∧
    ∃ msg, createChangedOrdersMessage em ((runCycle tokens fetched prev).2) = some msg ∧
      ∃ u v, msg = u ++ orderBlock em o ++ v := by
  have hmem : some o ∈ sideChanges fetched prev t := by
    rcases hcase with ⟨hch, hbo⟩ | ⟨hch, hbo⟩
    · rw [sideChanges, hch, hbo]
      exact List.mem_append_left _ (List.mem_singleton.mpr rfl)
    · rw [sideChanges, hch, hbo]
      exact List.mem_append_right _ (List.mem_singleton.mpr rfl)
  have hmem2 : some o ∈ (runCycle tokens fetched prev).2 := by
    rw [runCycle_snd]
    exact mem_changedOrders tokens fetched prev t (some o) ht hmem
  exact ⟨hmem2, message_contains_block em _ o hmem2⟩

/-- C6 witness: the changed TEA BUY order of a first cycle is queued and
its block occurs in the produced message. -/
theorem c6_changed_alerted_witness :
    some sampleOrd ∈ (runCycle (["TEA"]) sampleFetch (fun _ => none)).2 ∧
    ∃ msg, createChangedOrdersMessage (fun _ => [])
        ((runCycle (["TEA"]) sampleFetch (fun _ => none)).2) = some msg ∧
      ∃ u v, msg = u ++ orderBlock (fun _ => []) sampleOrd ++ v :=
  c6_changed_alerted (["TEA"]) sampleFetch (fun _ => none) (fun _ => []) ("TEA") sampleOrd
    (List.mem_singleton.mpr rfl)
    (Or.inl ⟨by rw [sample_bestBuy]; rfl, sample_bestBuy⟩)

end WhalesMonitor
